/-
  Verification of the DeskSentinel signal/alert core against its sources.

  Shallow embedding conventions:
  * Python floats (prices, epoch timestamps) are modelled as ℚ.
  * A local clock time (`datetime.time`) is modelled as seconds-of-day : ℕ
    (hour*3600 + minute*60); comparisons of `datetime.time` coincide with
    comparisons of these numbers.
  * Python dicts used as keyed maps are modelled as functions `String → Option _`.
  * Fallible parsing (`try/except` returning `None`) becomes `Option`.
-/
import Mathlib

/-! ## Shared list helpers -/

/-- Python `xs[-n:]` / pandas `Series.tail(n)` for `n ≥ 1`: the last `n`
elements (all of `xs` when `n ≥ len xs`). -/
def takeLast (n : ℕ) (l : List ℚ) : List ℚ :=
  l.drop (l.length - n)

namespace DeskSentinel

/-! ## Notifier gate — src/desk_sentinel/notifier.py -/

/-- Python `str.split(sep)` for a one-character separator, on the character
list of the string (Lean's own `String.splitOn` does not evaluate inside
proofs, so splitting is carried out on `String.data`). -/
def splitOnCharAux (c : Char) : List Char → List Char → List (List Char)
  | [], acc => [acc.reverse]
  | x :: xs, acc =>
    if x = c then acc.reverse :: splitOnCharAux c xs []
    else splitOnCharAux c xs (x :: acc)

/-- `s.split(c)` with a one-character separator. -/
def splitOnChar (c : Char) (s : List Char) : List (List Char) :=
  splitOnCharAux c s []

/-- Python `q.split("-", 1)`: split at the first `"-"` only; `none` when no
`"-"` occurs (the caller guards with `"-" not in q`). -/
def splitFirstDash (q : List Char) : Option (List Char × List Char) :=
  match splitOnChar '-' q with
  | [] => none
  | [_] => none
  | l :: rest => some (l, List.intercalate ['-'] rest)

/-- The whitespace characters `str.strip()` removes (ASCII subset;
the exotic unicode space classes never occur in a quiet-hours setting). -/
def pyIsSpace (c : Char) : Bool :=
  c = ' ' || c = '\t' || c = '\n' || c = '\r' || c = '\x0b' || c = '\x0c'

/-- Python `str.strip()`: drop whitespace from both ends. -/
def pyStrip (s : List Char) : List Char :=
  ((s.dropWhile pyIsSpace).reverse.dropWhile pyIsSpace).reverse

/-- Python `int(s)` on a plain digit string, `none` when empty or any
character is not a decimal digit. (`int` additionally tolerates surrounding
whitespace, a sign and digit-group underscores; those raise or are absent in
every configuration the claims touch, so the digit core is modelled.) -/
def parseDigits : List Char → Option ℕ
  | [] => none
  | s =>
    s.foldl (fun acc c =>
      match acc with
      | none => none
      | some n => if c.isDigit then some (n * 10 + (c.toNat - 48)) else none)
      (some 0)

/-- Python `int(s)` allowing one leading `'-'` sign (used by `_valid_hhmm`,
whose bounds check `0 <= h` can see a negative value). -/
def parseInt : List Char → Option ℤ
  | '-' :: s => (parseDigits s).map (fun n => -(n : ℤ))
  | s => (parseDigits s).map (fun n => (n : ℤ))

/-- Parse one `"HH:MM"` side of the quiet window: strip, split on `":"` into
exactly two parts (`hh1, mm1 = [...]` raises otherwise), convert each with
`int(...)`, and validate against the `datetime.time` constructor bounds
(hour < 24, minute < 60), yielding seconds-of-day. Any failure raises in
Python and is caught by `_parse_quiet_window`, hence `none` here. -/
def parseHHMMtime (s : List Char) : Option Nat :=
  match splitOnChar ':' (pyStrip s) with
  | [h, m] =>
    match parseDigits h, parseDigits m with
    | some hh, some mm =>
      if hh < 24 ∧ mm < 60 then some (hh * 3600 + mm * 60) else none
    | _, _ => none
  | _ => none

/-- `_parse_quiet_window` from src/desk_sentinel/notifier.py: accepts
`"HH:MM-HH:MM"`, returns `(start, end)` as times (seconds-of-day);
`none` if `q` is empty, has no `"-"`, or either side fails to parse. -/
def _parse_quiet_window (q : String) : Option (Nat × Nat) :=
  if q = "" ∨ ¬ q.data.contains '-' then none
  else
    match splitFirstDash q.data with
    | none => none
    | some (l, r) =>
      match parseHHMMtime l, parseHHMMtime r with
      | some s, some e => some (s, e)
      | _, _ => none

/-- `_in_quiet_hours` from src/desk_sentinel/notifier.py, with the configured
window string and the current local time-of-day passed explicitly.
Returns `true` iff the current local time is within the quiet window. -/
def _in_quiet_hours (q : String) (now : Nat) : Bool :=
  match _parse_quiet_window q with
  | none => false
  | some (s, e) =>
    if s < e then decide (s ≤ now ∧ now ≤ e)
    else decide (now ≥ s ∨ now ≤ e)

/-- The quiet-hours guard of `send_simple` / `send_embed`:
`if not bypass_quiet and _in_quiet_hours(): return`. -/
def quietSuppressed (q : String) (bypass_quiet : Bool) (now : Nat) : Bool :=
  !bypass_quiet && _in_quiet_hours q now

/-- The in-memory `_last_sent: Dict[str, float]` map (epoch seconds per key). -/
def LastSent : Type := String → Option ℚ

/-- Python truthiness of the `dedupe_key: Optional[str]` argument:
`not dedupe_key` is true for `None` and for the empty string. -/
def keyFalsy : Option String → Bool
  | none => true
  | some s => decide (s = "")

/-- `_on_cooldown` from src/desk_sentinel/notifier.py. `cooldown_min` is the
value `getattr(cfg, "alert_cooldown_min", 30)` resolves to; `or 30` replaces
a falsy (zero) value by 30. A key absent from `_last_sent` defaults to `0.0`.
Suppress iff `time.time() - last < cooldown_min * 60`. -/
def _on_cooldown (cooldown_min : ℕ) (m : LastSent) (dedupe_key : Option String)
    (now : ℚ) : Bool :=
  if keyFalsy dedupe_key then false
  else
    let cm : ℕ := if cooldown_min = 0 then 30 else cooldown_min
    let last : ℚ := (m (dedupe_key.getD "")).getD 0
    decide (now - last < cm * 60)

/-- `_mark_sent` from src/desk_sentinel/notifier.py: record `time.time()`
for a truthy key; do nothing for `None` or `""`. -/
def _mark_sent (m : LastSent) (dedupe_key : Option String) (now : ℚ) : LastSent :=
  if keyFalsy dedupe_key then m
  else fun k => if k = dedupe_key.getD "" then some now else m k

/-- Outcome of the `requests.post` call inside `_post_json`. -/
inductive PostResult
  | ok
  | fail
deriving DecidableEq

/-- `send_simple` from src/desk_sentinel/notifier.py, as its transition on the
`_last_sent` state. `nowEpoch` is `time.time()`, `nowLocal` the local
time-of-day used by the quiet-hours check. `outcome` is whether the webhook
POST succeeds; `_post_json` catches every exception internally (it only
prints), so `send_simple` proceeds to `_mark_sent` on either outcome —
the resulting state does not depend on `outcome`. -/
def send_simple (quiet_hours : String) (cooldown_min : ℕ) (webhook_url : String)
    (m : LastSent) (text : String) (dedupe_key : Option String)
    (bypass_quiet : Bool) (nowEpoch : ℚ) (nowLocal : Nat)
    (outcome : PostResult) : LastSent :=
  if text = "" ∨ webhook_url = "" then m
  else if quietSuppressed quiet_hours bypass_quiet nowLocal then m
  else if _on_cooldown cooldown_min m dedupe_key nowEpoch then m
  else
    -- `_post_json({"content": text})` happens here; its failure is swallowed.
    match outcome with
    | _ => _mark_sent m dedupe_key nowEpoch

/-! ## RollingStats — src/desk_sentinel/stock/rules.py -/

/-- `RollingStats.add`: `deque(maxlen=C).append(p)` — append on the right,
evicting from the left whenever the length would exceed the capacity `C`. -/
def dequeAppend (C : ℕ) (q : List ℚ) (p : ℚ) : List ℚ :=
  let q' := q ++ [p]
  if C < q'.length then q'.drop (q'.length - C) else q'

/-- Feeding a whole price sequence into a fresh `RollingStats(maxlen=C)`
by repeated `add`. -/
def addAll (C : ℕ) (q : List ℚ) (ps : List ℚ) : List ℚ :=
  ps.foldl (dequeAppend C) q

/-- `RollingStats.sma` from src/desk_sentinel/stock/rules.py:
`None` when fewer than `n` prices are recorded, else the mean of
`list(self.prices)[-n:]`. (For `n = 0` Python `[-0:]` is the whole list,
so the branch below keeps all prices in that case.) -/
def sma (prices : List ℚ) (n : ℕ) : Option ℚ :=
  if prices.length < n then none
  else
    let vals := if n = 0 then prices else takeLast n prices
    some (vals.sum / vals.length)

/-- The gain/loss accumulation loop of `RollingStats.rsi`:
`if d >= 0: gains += d  else: losses -= d` over the deltas. -/
def gainsLosses (deltas : List ℚ) (acc : ℚ × ℚ) : ℚ × ℚ :=
  deltas.foldl (fun gl d => if 0 ≤ d then (gl.1 + d, gl.2) else (gl.1, gl.2 - d)) acc

/-- The consecutive deltas `b - a` for `a, b` in
`zip(seq[-n-1:-1], seq[-n:])`: pair each of the last `n+1` values (minus the
final one) with its successor. -/
def rsiDeltas (seq : List ℚ) (n : ℕ) : List ℚ :=
  (((takeLast (n + 1) seq).dropLast).zip (takeLast n seq)).map fun ab => ab.2 - ab.1

/-- `RollingStats.rsi` from src/desk_sentinel/stock/rules.py: `None` with
fewer than `n+1` prices; else sum gains and losses over the last `n`
consecutive deltas, return `100.0` when losses are zero, otherwise
`100 - 100 / (1 + gains / losses)`. -/
def rsi (prices : List ℚ) (n : ℕ) : Option ℚ :=
  if prices.length < n + 1 then none
  else
    let gl := gainsLosses (rsiDeltas prices n) (0, 0)
    if gl.2 = 0 then some 100
    else some (100 - 100 / (1 + gl.1 / gl.2))

/-- A signal `(kind, value, note)` as produced by `evaluate_signals`. -/
def Signal : Type := String × ℚ × String

/-- Python truthiness of an `Optional[float]`: falsy when `None` or `0.0`.
`evaluate_signals` guards the trend rule with `if sma20 and sma50`. -/
def truthyOpt : Option ℚ → Bool
  | none => false
  | some x => !(x = 0)

/-- The trend rule of `evaluate_signals`: guarded by `if sma20 and sma50`
(Python truthiness), then `("trend", 1.0, "SMA20>50")` when `sma20 > sma50`
and `("trend", -1.0, "SMA20<50")` when `sma20 < sma50`. -/
def trendSignals (sma20 sma50 : Option ℚ) : List Signal :=
  if truthyOpt sma20 && truthyOpt sma50 then
    if sma20.getD 0 > sma50.getD 0 then [("trend", 1, "SMA20>50")]
    else if sma20.getD 0 < sma50.getD 0 then [("trend", -1, "SMA20<50")]
    else []
  else []

/-- The momentum rule of `evaluate_signals`: guarded by `rsi14 is not None`,
then `rsi_oversold` when `rsi14 <= 30` and `rsi_overbought` when
`rsi14 >= 70` (two independent `if`s). -/
def rsiSignals (rsi14 : Option ℚ) : List Signal :=
  match rsi14 with
  | none => []
  | some r =>
    (if r ≤ 30 then [("rsi_oversold", r, "RSI<=30")] else []) ++
    (if r ≥ 70 then [("rsi_overbought", r, "RSI>=70")] else [])

/-- `evaluate_signals` from src/desk_sentinel/stock/rules.py, as the appended
signal lists of its two rule blocks. `ticker` and `p` are accepted but unused
by the rules (the source reads only `stats`); `prices` is the recorded deque
contents. -/
def evaluate_signals (ticker : String) (p : ℚ) (prices : List ℚ) : List Signal :=
  let _ := ticker
  let _ := p
  trendSignals (sma prices 20) (sma prices 50) ++ rsiSignals (rsi prices 14)

/-! ## ExtremaTracker — src/desk_sentinel/storage.py -/

/-- The per-ticker record kept in `extrema.json`:
`{"high": None, "high_ts": None, "low": None, "low_ts": None}` initially. -/
structure ExtremaRec where
  high : Option ℚ
  high_ts : Option String
  low : Option ℚ
  low_ts : Option String
deriving DecidableEq

/-- The default record `data.get(ticker, {...None...})` starts from. -/
def emptyExtrema : ExtremaRec := ⟨none, none, none, none⟩

/-- `update_extrema` from src/desk_sentinel/storage.py, as its effect on the
single ticker's record (the JSON load/save around it is storage plumbing;
the record is rewritten only when changed, which never alters its value):
set `high`/`high_ts` when `rec["high"] is None or price > rec["high"]`,
set `low`/`low_ts` when `rec["low"] is None or price < rec["low"]`. -/
def update_extrema (rec : ExtremaRec) (price : ℚ) (ts : String) : ExtremaRec :=
  let rec1 :=
    match rec.high with
    | none => { rec with high := some price, high_ts := some ts }
    | some h =>
      if h < price then { rec with high := some price, high_ts := some ts } else rec
  match rec1.low with
  | none => { rec1 with low := some price, low_ts := some ts }
  | some l =>
    if price < l then { rec1 with low := some price, low_ts := some ts } else rec1

/-- A sequence of observations `(price, ts)` applied in order to a record. -/
def update_extrema_all (rec : ExtremaRec) (obs : List (ℚ × String)) : ExtremaRec :=
  obs.foldl (fun r o => update_extrema r o.1 o.2) rec

/-! ## Scheduler — src/desk_sentinel/discord_agent.py -/

/-- The two aspects of `datetime.date` the scheduler body reads:
`isoformat()` for the per-day stamp and `weekday()` (Mon=0 … Sun=6). -/
structure Date where
  ymd : String
  weekday : ℕ
deriving DecidableEq

/-- `_matches_day` from src/desk_sentinel/discord_agent.py. -/
def _matches_day (today : Date) (key : String) : Bool :=
  if key = "daily" then true
  else if key = "weekdays" then today.weekday < 5
  else if key = "weekends" then 5 ≤ today.weekday
  else
    let table := ["mon", "tue", "wed", "thu", "fri", "sat", "sun"]
    table.contains key && table.getD today.weekday "" = key

/-- `_valid_hhmm` from src/desk_sentinel/discord_agent.py: exactly two
`":"`-separated integer parts with `0 ≤ h < 24` and `0 ≤ m < 60`
(`int` accepts signs, so parse into ℤ); parse failures return `false`. -/
def _valid_hhmm (s : String) : Bool :=
  match splitOnChar ':' s.data with
  | [hh, mm] =>
    match parseInt hh, parseInt mm with
    | some h, some m => decide (0 ≤ h ∧ h < 24 ∧ 0 ≤ m ∧ m < 60)
    | _, _ => false
  | _ => false

/-- `ScheduleItem` dataclass from src/desk_sentinel/discord_agent.py. -/
structure ScheduleItem where
  id : String
  time_hhmm : String
  days : String
  channel_id : ℕ
  message : String
  enabled : Bool
  last_trigger_ymd : Option String
deriving DecidableEq

/-- The body of `DeskBot.scheduler_loop` for one schedule item on one tick.
`hhmm` is `now.strftime("%H:%M")`. `resolve` models `self.get_channel`
(whether Discord yields a channel object; a `channel_id` of 0 is falsy and
no lookup is attempted). Returns the updated item and whether a message
send was attempted; the send's own failure is caught and logged, and the
item is stamped with `today.isoformat()` in either case. -/
def scheduler_tick_item (resolve : ℕ → Bool) (today : Date) (hhmm : String)
    (it : ScheduleItem) : ScheduleItem × Bool :=
  if !it.enabled || !_valid_hhmm it.time_hhmm then (it, false)
  else if it.last_trigger_ymd = some today.ymd then (it, false)
  else if hhmm = it.time_hhmm && _matches_day today it.days then
    let dispatched := it.channel_id ≠ 0 && resolve it.channel_id
    ({ it with last_trigger_ymd := some today.ymd }, dispatched)
  else (it, false)

/-- Iterating `scheduler_loop` ticks `(today, hhmm)` over one item
(the per-tick reload and save of `schedules.json` preserve the item
between ticks). -/
def scheduler_run (resolve : ℕ → Bool) (ticks : List (Date × String))
    (it : ScheduleItem) : ScheduleItem :=
  ticks.foldl (fun s t => (scheduler_tick_item resolve t.1 t.2 s).1) it

/-- Spec-side: the consecutive changes `b - a` of a price series. -/
def deltas : List ℚ → List ℚ
  | a :: b :: rest => (b - a) :: deltas (b :: rest)
  | _ => []

/-- Spec-side: the sum of the strictly positive deltas. -/
def sumPosDeltas (ds : List ℚ) : ℚ :=
  (ds.filter (fun d => 0 < d)).sum

/-- Spec-side: the sum of the magnitudes of the negative deltas. -/
def sumNegMagnitudes (ds : List ℚ) : ℚ :=
  ((ds.filter (fun d => d < 0)).map (fun d => -d)).sum

end DeskSentinel

namespace SentinelCore

/-! ## Alert rules — src/sentinel_core/rules.py -/

/-- A signal `(signal_name, value, note)`. -/
def Signal : Type := String × ℚ × String

/-- pandas `Series.max` on a nonempty series, as a left fold from the head. -/
def seriesMax (l : List ℚ) : ℚ :=
  l.foldl max (l.headD 0)

/-- pandas `Series.min` on a nonempty series, as a left fold from the head. -/
def seriesMin (l : List ℚ) : ℚ :=
  l.foldl min (l.headD 0)

/-- The percent-move rule of `evaluate_stock_rules`: fires when the percent
change over the fetched window is at least 2 in magnitude. The numeric
interpolation of the source's f-string note is elided (presentation only). -/
def pctSignals (pct_change : ℚ) : List Signal :=
  if 2 ≤ |pct_change| then
    [("pct_move", pct_change, "Price moved in the last hour")]
  else []

/-- The 14-period RSI rule of `evaluate_stock_rules`: rolling-mean average
gain/loss over the last 14 diffs, RSI forced to 100 when the average loss is
zero, `elif` between the oversold and overbought alerts. -/
def rsiCoreSignals (df : List ℚ) : List Signal :=
  if 15 ≤ df.length then
    let diff := (df.dropLast.zip df.tail).map fun ab => ab.2 - ab.1
    let last14 := takeLast 14 diff
    let avg_gain := (last14.map fun d => max d 0).sum / 14
    let avg_loss := (last14.map fun d => -(min d 0)).sum / 14
    let rsi := if avg_loss = 0 then 100 else 100 - 100 / (1 + avg_gain / avg_loss)
    if rsi ≤ 30 then [("rsi_oversold", rsi, "RSI <= 30 (oversold)")]
    else if 70 ≤ rsi then [("rsi_overbought", rsi, "RSI >= 70 (overbought)")]
    else []
  else []

/-- The moving-average crossover alerts computed on the 20-point window of
`evaluate_stock_rules`. -/
def maSignals (last20 : List ℚ) : List Signal :=
  let ma_short := (takeLast 5 last20).sum / 5
  let ma_long := last20.sum / 20
  if ma_long < ma_short then
    [("ma_cross", ma_short - ma_long, "Short MA crossed above long MA")]
  else if ma_short < ma_long then
    [("ma_cross", ma_short - ma_long, "Short MA crossed below long MA")]
  else []

/-- The 20-period breakout block of `evaluate_stock_rules` (breakout-high,
breakout-low, then the MA crossover on the same window). -/
def breakoutSignals (df : List ℚ) : List Signal :=
  if 20 ≤ df.length then
    let current_price := df.getLastD 0
    let last20 := takeLast 20 df
    let high20 := seriesMax last20
    let low20 := seriesMin last20
    (if high20 ≤ current_price then
      ([("break_20_high", current_price, "Price hit 20-period high")] : List Signal)
     else [])
    ++ (if current_price ≤ low20 then
      ([("break_20_low", current_price, "Price hit 20-period low")] : List Signal)
     else [])
    ++ maSignals last20
  else []

/-- `evaluate_stock_rules` from src/sentinel_core/rules.py, as a function of
the chronologically sorted price column `df` of the fetched ticks (the SQL
fetch of at most 60 rows and the sort are storage plumbing), assembled as
the appended signal lists of its rule blocks in source order.
`first_price = 0` makes Python's float division produce `inf`/`nan`,
modelled here by ℚ's `x / 0 = 0`; only the `pct_move` branch is affected. -/
def evaluate_stock_rules (df : List ℚ) : List Signal :=
  if df.isEmpty then []
  else
    let current_price := df.getLastD 0
    let first_price := df.headD 0
    let pct_change := (current_price - first_price) / first_price * 100
    pctSignals pct_change ++ rsiCoreSignals df ++ breakoutSignals df

/-! ## Extrema store — src/sentinel_core/database.py -/

/-- One row of the `extrema` table:
`(all_time_high, high_ts, all_time_low, low_ts)`. -/
structure ExtremaRow where
  all_time_high : ℚ
  high_ts : String
  all_time_low : ℚ
  low_ts : String
deriving DecidableEq

/-- Python `x or y` on a float: `y` when `x` is falsy (`0.0`), else `x`. -/
def orFloat (x y : ℚ) : ℚ :=
  if x = 0 then y else x

/-- `update_extrema` from src/sentinel_core/database.py, as its effect on the
ticker's row (SELECT/REPLACE around it is storage plumbing): a missing row
initializes both extrema to `price` with timestamp `ts`; otherwise the high
is replaced when `price > (high or price)` and the low when
`price < (low or price)`. -/
def update_extrema (row : Option ExtremaRow) (price : ℚ) (ts : String) :
    ExtremaRow :=
  match row with
  | none => ⟨price, ts, price, ts⟩
  | some r =>
    let hi :=
      if price > orFloat r.all_time_high price then (price, ts)
      else (r.all_time_high, r.high_ts)
    let lo :=
      if price < orFloat r.all_time_low price then (price, ts)
      else (r.all_time_low, r.low_ts)
    ⟨hi.1, hi.2, lo.1, lo.2⟩

end SentinelCore

namespace DeskSentinel

/-! ## Theorems -/

/-- C2: Quiet-hours suppression. With a configured window parsed as two
`HH:MM` boundaries `(s, e)`, `_in_quiet_hours` suppresses exactly when
`s ≤ now ≤ e` if `s < e`, and exactly when `now ≥ s ∨ now ≤ e` if `s ≥ e`
(overnight window); a malformed or absent window never suppresses; and a
call with `bypass_quiet = true` is never suppressed by quiet hours at any
local time. -/
theorem quiet_hours_spec (q : String) (now : Nat) :
    (∀ s e, _parse_quiet_window q = some (s, e) →
      (s < e → (_in_quiet_hours q now = true ↔ s ≤ now ∧ now ≤ e))
      ∧ (e ≤ s → (_in_quiet_hours q now = true ↔ now ≥ s ∨ now ≤ e)))
    ∧ (_parse_quiet_window q = none → _in_quiet_hours q now = false)
    ∧ quietSuppressed q true now = false := by
  refine ⟨fun s e hp => ⟨fun hlt => ?_, fun hle => ?_⟩, fun hp => ?_, ?_⟩
  · simp [_in_quiet_hours, hp, hlt]
  · have hnlt : ¬ s < e := not_lt.mpr hle
    simp [_in_quiet_hours, hp, hnlt, ge_iff_le]
  · simp [_in_quiet_hours, hp]
  · simp [quietSuppressed]

/-- Witness for `quiet_hours_spec` on the window `"23:00-07:00"`:
suppressed at local 23:30 (84600 s), not suppressed at 12:00 (43200 s),
and never suppressed with `bypass_quiet = true`. -/
theorem quiet_hours_spec_witness :
    _in_quiet_hours "23:00-07:00" 84600 = true
    ∧ _in_quiet_hours "23:00-07:00" 43200 = false
    ∧ quietSuppressed "23:00-07:00" true 84600 = false := by
  have h1 := quiet_hours_spec "23:00-07:00" 84600
  have h2 := quiet_hours_spec "23:00-07:00" 43200
  have hp : _parse_quiet_window "23:00-07:00" = some (82800, 25200) := by decide
  refine ⟨((h1.1 82800 25200 hp).2 (by norm_num)).mpr (by norm_num), ?_, h1.2.2⟩
  have hiff := (h2.1 82800 25200 hp).2 (by norm_num)
  have hnot : ¬ (43200 ≥ 82800 ∨ 43200 ≤ 25200) := by norm_num
  cases hb : _in_quiet_hours "23:00-07:00" 43200 with
  | false => rfl
  | true => exact absurd (hiff.mp hb) hnot

/-- C3: Cooldown suppression. For a (nonempty) dedupe key `k` with a recorded
last send at `t`, a new send is suppressed iff `now - t` is strictly less
than `cooldown_min` minutes; a call with no dedupe key is never suppressed
by cooldown. (`cooldown_min > 0`: the source replaces a falsy configured
value by the default 30.) -/
theorem cooldown_spec (cooldown_min : ℕ) (hcm : 0 < cooldown_min)
    (m : LastSent) (k : String) (hk : k ≠ "") (t now : ℚ) (hlast : m k = some t) :
    (_on_cooldown cooldown_min m (some k) now = true
      ↔ now - t < (cooldown_min : ℚ) * 60)
    ∧ _on_cooldown cooldown_min m none now = false := by
  constructor
  · simp [_on_cooldown, keyFalsy, hk, hlast, Nat.pos_iff_ne_zero.mp hcm]
  · simp [_on_cooldown, keyFalsy]

/-- Witness for `cooldown_spec`: with the last send for `"k"` recorded 300 s
(5 min) before `now`, a 30-minute cooldown suppresses, a 3-minute cooldown
does not, and a keyless call is never suppressed. -/
theorem cooldown_spec_witness :
    _on_cooldown 30 (fun k => if k = "k" then some 1000 else none) (some "k") 1300 = true
    ∧ _on_cooldown 3 (fun k => if k = "k" then some 1000 else none) (some "k") 1300 = false
    ∧ _on_cooldown 30 (fun k => if k = "k" then some 1000 else none) none 1300 = false := by
  have h30 := cooldown_spec 30 (by norm_num)
    (fun k => if k = "k" then some 1000 else none) "k" (by decide) 1000 1300 (by simp)
  have h3 := cooldown_spec 3 (by norm_num)
    (fun k => if k = "k" then some 1000 else none) "k" (by decide) 1000 1300 (by simp)
  refine ⟨h30.1.mpr (by norm_num), ?_, h30.2⟩
  cases hb : _on_cooldown 3 (fun k => if k = "k" then some 1000 else none) (some "k") 1300 with
  | false => rfl
  | true => have := h3.1.mp hb; norm_num at this

/-- C1 counterexample: a `send_simple` call whose underlying webhook post
fails still changes the last-sent entry for its dedupe key — with an empty
map, no quiet hours and key `"k"`, the failed call sets the entry to the
attempt time even though the claim says it is unchanged. `_post_json`
swallows the transport error and `send_simple` then calls `_mark_sent`
unconditionally. -/
theorem send_simple_fail_marks_counterexample :
    send_simple "" 30 "https://example.test/hook" (fun _ => none) "hi"
      (some "k") false 1000000 43200 PostResult.fail "k" = some 1000000
    ∧ (fun _ => (none : Option ℚ)) "k" = none := by
  refine ⟨?_, rfl⟩
  simp [send_simple, quietSuppressed, _in_quiet_hours, _parse_quiet_window,
    _on_cooldown, keyFalsy, _mark_sent]
  norm_num

theorem deltas_length : ∀ l : List ℚ, (deltas l).length = l.length - 1
  | [] => rfl
  | [_] => rfl
  | _ :: b :: rest => by
    simp [deltas, deltas_length (b :: rest)]

theorem zip_dropLast_tail_eq_deltas : ∀ m : List ℚ,
    ((m.dropLast).zip m.tail).map (fun ab => ab.2 - ab.1) = deltas m
  | [] => rfl
  | [_] => rfl
  | a :: b :: rest => by
    have ih := zip_dropLast_tail_eq_deltas (b :: rest)
    simp only [deltas, List.tail_cons] at ih ⊢
    rw [List.dropLast_cons₂, List.zip_cons_cons, List.map_cons, ih]

theorem takeLast_succ_tail (n : ℕ) (l : List ℚ) (h : n + 1 ≤ l.length) :
    (takeLast (n + 1) l).tail = takeLast n l := by
  simp only [takeLast, List.tail_drop]
  congr 1
  omega

theorem deltas_drop : ∀ (k : ℕ) (l : List ℚ), deltas (l.drop k) = (deltas l).drop k := by
  intro k
  induction k with
  | zero => intro l; simp
  | succ k ih =>
    intro l
    match l with
    | [] => simp [deltas]
    | [a] => simp [deltas]
    | a :: b :: rest =>
      rw [List.drop_succ_cons]
      rw [show deltas (a :: b :: rest) = (b - a) :: deltas (b :: rest) from rfl]
      rw [List.drop_succ_cons]
      exact ih (b :: rest)

theorem rsiDeltas_eq_takeLast_deltas (l : List ℚ) (n : ℕ) (h : n + 1 ≤ l.length) :
    rsiDeltas l n = takeLast n (deltas l) := by
  unfold rsiDeltas
  rw [← takeLast_succ_tail n l h, zip_dropLast_tail_eq_deltas]
  show deltas (l.drop (l.length - (n + 1))) = takeLast n (deltas l)
  rw [deltas_drop, takeLast, deltas_length]
  congr 1
  omega

theorem gainsLosses_eq : ∀ (ds : List ℚ) (g0 l0 : ℚ),
    gainsLosses ds (g0, l0) = (g0 + sumPosDeltas ds, l0 + sumNegMagnitudes ds)
  | [], g0, l0 => by
    simp [gainsLosses, sumPosDeltas, sumNegMagnitudes]
  | d :: ds, g0, l0 => by
    have step : gainsLosses (d :: ds) (g0, l0) =
        gainsLosses ds (if 0 ≤ d then (g0 + d, l0) else (g0, l0 - d)) := rfl
    rcases lt_trichotomy d 0 with hd | hd | hd
    · rw [step, if_neg (not_le.mpr hd), gainsLosses_eq]
      have hp : ¬ (0 < d) := not_lt.mpr hd.le
      simp [sumPosDeltas, sumNegMagnitudes, List.filter_cons, hd, hp]
      ring
    · subst hd
      rw [step, if_pos le_rfl, gainsLosses_eq]
      simp [sumPosDeltas, sumNegMagnitudes, List.filter_cons]
    · rw [step, if_pos hd.le, gainsLosses_eq]
      have hn : ¬ (d < 0) := not_lt.mpr hd.le
      simp [sumPosDeltas, sumNegMagnitudes, List.filter_cons, hd, hn]
      ring

theorem deltas_pos_of_chain : ∀ l : List ℚ, l.Chain' (· < ·) →
    ∀ d ∈ deltas l, 0 < d
  | [], _, d, hd => by simp [deltas] at hd
  | [_], _, d, hd => by simp [deltas] at hd
  | a :: b :: rest, h, d, hd => by
    rw [List.chain'_cons] at h
    rw [show deltas (a :: b :: rest) = (b - a) :: deltas (b :: rest) from rfl,
      List.mem_cons] at hd
    rcases hd with h1 | h2
    · subst h1; linarith [h.1]
    · exact deltas_pos_of_chain (b :: rest) h.2 d h2

theorem sumNegMagnitudes_eq_zero {ds : List ℚ} (h : ∀ d ∈ ds, 0 ≤ d) :
    sumNegMagnitudes ds = 0 := by
  unfold sumNegMagnitudes
  have hnil : ds.filter (fun d => d < 0) = [] := by
    rw [List.filter_eq_nil_iff]
    intro a ha
    simpa using not_lt.mpr (h a ha)
  simp [hnil]

/-- C4: `rsi n` returns `none` with fewer than `n+1` recorded points; with at
least `n+1` points it returns `100 - 100/(1 + G/L)` where `G` is the sum of
the positive deltas and `L` the sum of the magnitudes of the negative deltas
over the last `n` consecutive deltas; when `L` is exactly zero it returns
the saturating value 100 — in particular `rsi 14` on a strictly increasing
15-point series is exactly 100. -/
theorem rsi_spec (prices : List ℚ) (n : ℕ) :
    (prices.length < n + 1 → rsi prices n = none)
    ∧ (n + 1 ≤ prices.length →
        (sumNegMagnitudes (takeLast n (deltas prices)) = 0 →
          rsi prices n = some 100)
        ∧ (sumNegMagnitudes (takeLast n (deltas prices)) ≠ 0 →
          rsi prices n = some (100 - 100 / (1 +
            sumPosDeltas (takeLast n (deltas prices)) /
            sumNegMagnitudes (takeLast n (deltas prices))))))
    ∧ (prices.length = 15 → prices.Chain' (· < ·) → rsi prices 14 = some 100) := by
  have key : ∀ m : ℕ, m + 1 ≤ prices.length →
      gainsLosses (rsiDeltas prices m) (0, 0)
        = (sumPosDeltas (takeLast m (deltas prices)),
           sumNegMagnitudes (takeLast m (deltas prices))) := by
    intro m hm
    rw [rsiDeltas_eq_takeLast_deltas prices m hm, gainsLosses_eq]
    simp
  refine ⟨fun h => by simp [rsi, h],
    fun h => ⟨fun hL => ?_, fun hL => ?_⟩, fun h15 hch => ?_⟩
  · simp only [rsi, if_neg (not_lt.mpr h), key n h]
    simp [hL]
  · simp only [rsi, if_neg (not_lt.mpr h), key n h]
    simp [hL]
  · have h14 : 14 + 1 ≤ prices.length := by omega
    have hpos : ∀ d ∈ takeLast 14 (deltas prices), 0 ≤ d := by
      intro d hd
      have hmem : d ∈ deltas prices := List.drop_subset _ _ hd
      exact (deltas_pos_of_chain prices hch d hmem).le
    have hL := sumNegMagnitudes_eq_zero hpos
    simp only [rsi, if_neg (not_lt.mpr h14), key 14 h14]
    simp [hL]

/-- Witness for `rsi_spec`: `rsi 14` on the 3-point series is unavailable;
on the strictly increasing series `[1,…,15]` it is exactly 100; and on
`[10, 12, 11]` (`n = 2`, gains 2, losses 1) it is `100 - 100/(1 + 2/1) = 200/3`. -/
theorem rsi_spec_witness :
    rsi [1, 2, 3] 14 = none
    ∧ rsi [1, 2, 3, 4, 5, 6, 7, 8, 9, 10, 11, 12, 13, 14, 15] 14 = some 100
    ∧ rsi [10, 12, 11] 2 = some (200 / 3) := by
  refine ⟨(rsi_spec [1, 2, 3] 14).1 (by simp), ?_, ?_⟩
  · refine (rsi_spec [1, 2, 3, 4, 5, 6, 7, 8, 9, 10, 11, 12, 13, 14, 15] 14).2.2
      (by simp) ?_
    simp only [List.chain'_cons, List.chain'_singleton, and_true]
    norm_num
  · have hd : deltas [10, 12, 11] = [2, -1] := by
      simp [deltas]; norm_num
    have ht : takeLast 2 (deltas [10, 12, 11]) = [2, -1] := by
      rw [hd]; rfl
    have hP : sumPosDeltas (takeLast 2 (deltas [10, 12, 11])) = 2 := by
      rw [ht]
      norm_num [sumPosDeltas, List.filter_cons]
    have hN : sumNegMagnitudes (takeLast 2 (deltas [10, 12, 11])) = 1 := by
      rw [ht]
      norm_num [sumNegMagnitudes, List.filter_cons]
    have := ((rsi_spec [10, 12, 11] 2).2.1 (by simp)).2 (by rw [hN]; norm_num)
    rw [this, hP, hN]
    norm_num

theorem not_trend_mem_rsiSignals (o : Option ℚ) (v : ℚ) (n : String) :
    ("trend", v, n) ∉ rsiSignals o := by
  cases o with
  | none => simp [rsiSignals]
  | some r =>
    simp only [rsiSignals, List.mem_append]
    rintro (h | h) <;> split_ifs at h <;> simp at h

theorem trendSignals_mem_iff (o1 o2 : Option ℚ) :
    (("trend", (1 : ℚ), "SMA20>50") ∈ trendSignals o1 o2
      ↔ ∃ a b, o1 = some a ∧ o2 = some b ∧ a ≠ 0 ∧ b ≠ 0 ∧ b < a)
    ∧ (("trend", (-1 : ℚ), "SMA20<50") ∈ trendSignals o1 o2
      ↔ ∃ a b, o1 = some a ∧ o2 = some b ∧ a ≠ 0 ∧ b ≠ 0 ∧ a < b)
    ∧ (∀ v n, ("trend", v, n) ∈ trendSignals o1 o2 →
        (v = 1 ∧ n = "SMA20>50") ∨ (v = -1 ∧ n = "SMA20<50")) := by
  cases o1 with
  | none => simp [trendSignals, truthyOpt]
  | some a =>
    cases o2 with
    | none => simp [trendSignals, truthyOpt]
    | some b =>
      by_cases ha : a = 0
      · simp [trendSignals, truthyOpt, ha]
      · by_cases hb : b = 0
        · simp [trendSignals, truthyOpt, ha, hb]
        · rcases lt_trichotomy a b with hab | hab | hab
          · simp [trendSignals, truthyOpt, ha, hb, hab, not_lt_of_lt hab,
              hab.ne, hab.ne']
          · subst hab
            simp [trendSignals, truthyOpt, ha, hb, lt_irrefl]
          · simp [trendSignals, truthyOpt, ha, hb, hab, not_lt_of_lt hab,
              hab.ne, hab.ne']

/-- C5 counterexample: on the series of thirty 1s followed by twenty 0s, both
SMAs are available (`SMA20 = 0`, `SMA50 = 3/5`) and unequal, so the claim
demands a trend-down signal — yet `evaluate_signals` emits no trend signal
at all, because the Python truthiness guard `if sma20 and sma50` treats the
zero-valued `SMA20` as unavailable. -/
theorem evaluate_signals_trend_counterexample :
    sma (List.replicate 30 1 ++ List.replicate 20 0) 20 = some 0
    ∧ sma (List.replicate 30 1 ++ List.replicate 20 0) 50 = some (3 / 5)
    ∧ ((0 : ℚ) < 3 / 5)
    ∧ ∀ v n, ("trend", v, n) ∉
        evaluate_signals "X" 0 (List.replicate 30 1 ++ List.replicate 20 0) := by
  have hlen : (List.replicate 30 (1 : ℚ) ++ List.replicate 20 0).length = 50 := by
    simp
  have htl : takeLast 20 (List.replicate 30 (1 : ℚ) ++ List.replicate 20 0)
      = List.replicate 20 0 := by
    rw [takeLast, hlen]
    rw [show (50 - 20 : ℕ) = (List.replicate 30 (1 : ℚ)).length by simp]
    exact List.drop_left _ _
  have h20 : sma (List.replicate 30 1 ++ List.replicate 20 0) 20 = some 0 := by
    have hlt : ¬ (List.replicate 30 (1 : ℚ) ++ List.replicate 20 0).length < 20 := by
      rw [hlen]; norm_num
    simp only [sma, if_neg hlt]
    rw [if_neg (by norm_num : ¬ (20 : ℕ) = 0), htl]
    simp
  have h50 : sma (List.replicate 30 1 ++ List.replicate 20 0) 50 = some (3 / 5) := by
    have hlt : ¬ (List.replicate 30 (1 : ℚ) ++ List.replicate 20 0).length < 50 := by
      rw [hlen]; norm_num
    have hfull : takeLast 50 (List.replicate 30 (1 : ℚ) ++ List.replicate 20 0)
        = List.replicate 30 (1 : ℚ) ++ List.replicate 20 0 := by
      rw [takeLast, hlen]
      norm_num
    simp only [sma, if_neg hlt]
    rw [if_neg (by norm_num : ¬ (50 : ℕ) = 0), hfull, hlen]
    simp
    norm_num
  refine ⟨h20, h50, by norm_num, fun v n h => ?_⟩
  simp only [evaluate_signals, List.mem_append] at h
  rcases h with h | h
  · rw [h20] at h
    simp [trendSignals, truthyOpt] at h
  · exact not_trend_mem_rsiSignals _ v n h

/-- C5 amended: the trend rule of the signal evaluator with the truthiness
guard made explicit — a trend-up signal is emitted iff SMA(20) and SMA(50)
are both available AND both nonzero and SMA20 > SMA50; a trend-down signal
iff both available and nonzero and SMA20 < SMA50; and no trend signal
otherwise (either average unavailable, either average exactly zero, or the
two equal). -/
theorem evaluate_signals_trend_spec (tk : String) (p : ℚ) (ps : List ℚ) :
    (("trend", (1 : ℚ), "SMA20>50") ∈ evaluate_signals tk p ps
      ↔ ∃ a b, sma ps 20 = some a ∧ sma ps 50 = some b ∧ a ≠ 0 ∧ b ≠ 0 ∧ b < a)
    ∧ (("trend", (-1 : ℚ), "SMA20<50") ∈ evaluate_signals tk p ps
      ↔ ∃ a b, sma ps 20 = some a ∧ sma ps 50 = some b ∧ a ≠ 0 ∧ b ≠ 0 ∧ a < b)
    ∧ (∀ v n, ("trend", v, n) ∈ evaluate_signals tk p ps →
        (v = 1 ∧ n = "SMA20>50") ∨ (v = -1 ∧ n = "SMA20<50")) := by
  have hsplit : ∀ (v : ℚ) (n : String), ("trend", v, n) ∈ evaluate_signals tk p ps
      ↔ ("trend", v, n) ∈ trendSignals (sma ps 20) (sma ps 50) := by
    intro v n
    simp only [evaluate_signals, List.mem_append]
    constructor
    · rintro (h | h)
      · exact h
      · exact absurd h (not_trend_mem_rsiSignals _ v n)
    · exact fun h => Or.inl h
  have hch := trendSignals_mem_iff (sma ps 20) (sma ps 50)
  exact ⟨(hsplit 1 "SMA20>50").trans hch.1,
    (hsplit (-1) "SMA20<50").trans hch.2.1,
    fun v n h => hch.2.2 v n ((hsplit v n).mp h)⟩

/-- Witness for `evaluate_signals_trend_spec`: on thirty 1s followed by
twenty 2s (`SMA20 = 2 > SMA50 = 7/5`, both nonzero) the evaluator emits the
trend-up signal, and on the empty series it emits no trend signal. -/
theorem evaluate_signals_trend_spec_witness :
    ("trend", (1 : ℚ), "SMA20>50")
      ∈ evaluate_signals "X" 0 (List.replicate 30 1 ++ List.replicate 20 2)
    ∧ ∀ v n, ("trend", v, n) ∉ evaluate_signals "X" 0 [] := by
  have hlen : (List.replicate 30 (1 : ℚ) ++ List.replicate 20 2).length = 50 := by
    simp
  have htl : takeLast 20 (List.replicate 30 (1 : ℚ) ++ List.replicate 20 2)
      = List.replicate 20 2 := by
    rw [takeLast, hlen]
    rw [show (50 - 20 : ℕ) = (List.replicate 30 (1 : ℚ)).length by simp]
    exact List.drop_left _ _
  have h20 : sma (List.replicate 30 1 ++ List.replicate 20 2) 20 = some 2 := by
    have hlt : ¬ (List.replicate 30 (1 : ℚ) ++ List.replicate 20 2).length < 20 := by
      rw [hlen]; norm_num
    simp only [sma, if_neg hlt]
    rw [if_neg (by norm_num : ¬ (20 : ℕ) = 0), htl]
    simp
    norm_num
  have h50 : sma (List.replicate 30 1 ++ List.replicate 20 2) 50 = some (7 / 5) := by
    have hlt : ¬ (List.replicate 30 (1 : ℚ) ++ List.replicate 20 2).length < 50 := by
      rw [hlen]; norm_num
    have hfull : takeLast 50 (List.replicate 30 (1 : ℚ) ++ List.replicate 20 2)
        = List.replicate 30 (1 : ℚ) ++ List.replicate 20 2 := by
      rw [takeLast, hlen]
      norm_num
    simp only [sma, if_neg hlt]
    rw [if_neg (by norm_num : ¬ (50 : ℕ) = 0), hfull, hlen]
    simp
    norm_num
  constructor
  · exact (evaluate_signals_trend_spec "X" 0 _).1.mpr
      ⟨2, 7 / 5, h20, h50, by norm_num, by norm_num, by norm_num⟩
  · intro v n h
    rcases (evaluate_signals_trend_spec "X" 0 []).2.2 v n h with ⟨rfl, rfl⟩ | ⟨rfl, rfl⟩
    · rcases (evaluate_signals_trend_spec "X" 0 []).1.mp h
        with ⟨a, b, ha, _⟩
      simp [sma] at ha
    · rcases (evaluate_signals_trend_spec "X" 0 []).2.1.mp h
        with ⟨a, b, ha, _⟩
      simp [sma] at ha

theorem takeLast_length_le (C : ℕ) (l : List ℚ) : (takeLast C l).length ≤ C := by
  rw [takeLast]
  simp only [List.length_drop]
  omega

theorem takeLast_of_length_le {C : ℕ} {l : List ℚ} (h : l.length ≤ C) :
    takeLast C l = l := by
  rw [takeLast, Nat.sub_eq_zero_of_le h, List.drop_zero]

theorem dequeAppend_eq_takeLast (C : ℕ) (q : List ℚ) (p : ℚ) :
    dequeAppend C q p = takeLast C (q ++ [p]) := by
  rw [dequeAppend, takeLast]
  split
  · rfl
  · next h =>
    rw [Nat.sub_eq_zero_of_le (not_lt.mp h), List.drop_zero]

theorem takeLast_append_takeLast (C : ℕ) (l m : List ℚ) :
    takeLast C (takeLast C l ++ m) = takeLast C (l ++ m) := by
  by_cases hC : l.length ≤ C
  · rw [takeLast_of_length_le hC]
  · simp only [takeLast, List.drop_append_eq_append_drop, List.drop_drop,
      List.length_append, List.length_drop]
    have h1 : l.length - C + (l.length - (l.length - C) + m.length - C)
        = l.length + m.length - C := by omega
    have h2 : l.length - (l.length - C) + m.length - C - (l.length - (l.length - C))
        = l.length + m.length - C - l.length := by omega
    rw [h1, h2]

theorem addAll_eq_takeLast (C : ℕ) : ∀ (ps q : List ℚ), q.length ≤ C →
    addAll C q ps = takeLast C (q ++ ps)
  | [], q, h => by
    rw [addAll, List.foldl_nil, List.append_nil, takeLast_of_length_le h]
  | p :: ps, q, h => by
    have hstep : addAll C q (p :: ps) = addAll C (dequeAppend C q p) ps := rfl
    have hlen : (dequeAppend C q p).length ≤ C := by
      rw [dequeAppend_eq_takeLast]
      exact takeLast_length_le C (q ++ [p])
    rw [hstep, addAll_eq_takeLast C ps (dequeAppend C q p) hlen,
      dequeAppend_eq_takeLast, takeLast_append_takeLast]
    simp

/-- C7: feeding any price sequence into a fresh `RollingStats` deque of
capacity `C` leaves at most `C` retained elements, and once more than `C`
prices have been added the retained elements are exactly the `C` most
recently added prices in insertion order (oldest evicted first). -/
theorem rollingstats_fifo (C : ℕ) (ps : List ℚ) :
    (addAll C [] ps).length ≤ C
    ∧ (C < ps.length → addAll C [] ps = takeLast C ps) := by
  have h := addAll_eq_takeLast C ps [] (by simp)
  rw [List.nil_append] at h
  exact ⟨h ▸ takeLast_length_le C ps, fun _ => h⟩

/-- Witness for `rollingstats_fifo`: capacity 2 with prices `[1, 2, 3]`
retains exactly `[2, 3]`. -/
theorem rollingstats_fifo_witness :
    (addAll 2 [] [1, 2, 3]).length ≤ 2 ∧ addAll 2 [] [1, 2, 3] = [2, 3] := by
  have h := rollingstats_fifo 2 [1, 2, 3]
  exact ⟨h.1, (h.2 (by norm_num)).trans rfl⟩

/-- C8: extrema tracking per instrument. The first observation initializes
both extremes (and their timestamps) to that price; afterwards the high is
replaced exactly when the price strictly exceeds it and the low exactly when
the price is strictly below it, so a price equal to the current extreme
leaves value and timestamp unchanged; and the run `[5, 3, 8, 8, 1]` ends
with `high = 8` stamped at the first 8 and `low = 1` stamped at the 1. -/
theorem update_extrema_spec :
    (∀ (p : ℚ) (ts : String),
      update_extrema emptyExtrema p ts = ⟨some p, some ts, some p, some ts⟩)
    ∧ (∀ (rec : ExtremaRec) (h : ℚ) (p : ℚ) (ts : String), rec.high = some h →
        (h < p → (update_extrema rec p ts).high = some p
          ∧ (update_extrema rec p ts).high_ts = some ts)
        ∧ (p ≤ h → (update_extrema rec p ts).high = rec.high
          ∧ (update_extrema rec p ts).high_ts = rec.high_ts))
    ∧ (∀ (rec : ExtremaRec) (l : ℚ) (p : ℚ) (ts : String), rec.low = some l →
        (p < l → (update_extrema rec p ts).low = some p
          ∧ (update_extrema rec p ts).low_ts = some ts)
        ∧ (l ≤ p → (update_extrema rec p ts).low = rec.low
          ∧ (update_extrema rec p ts).low_ts = rec.low_ts))
    ∧ update_extrema_all emptyExtrema
        [(5, "t1"), (3, "t2"), (8, "t3"), (8, "t4"), (1, "t5")]
      = ⟨some 8, some "t3", some 1, some "t5"⟩ := by
  have hfields : ∀ (hi : Option ℚ) (hits : Option String) (lo : Option ℚ)
      (lots : Option String) (p : ℚ) (ts : String),
      update_extrema ⟨hi, hits, lo, lots⟩ p ts =
        ⟨(match hi with | none => some p | some h => if h < p then some p else some h),
         (match hi with | none => some ts | some h => if h < p then some ts else hits),
         (match lo with | none => some p | some l => if p < l then some p else some l),
         (match lo with | none => some ts | some l => if p < l then some ts else lots)⟩ := by
    intro hi hits lo lots p ts
    cases hi with
    | none => cases lo <;> simp only [update_extrema] <;> (try split) <;> rfl
    | some h =>
      rcases lt_or_le h p with hp | hp
      · cases lo <;> simp only [update_extrema, if_pos hp] <;> (try split) <;> rfl
      · cases lo <;> simp only [update_extrema, if_neg (not_lt.mpr hp)] <;>
          (try split) <;> rfl
  refine ⟨fun p ts => rfl, fun rec h p ts hh => ⟨fun hlt => ?_, fun hle => ?_⟩,
    fun rec l p ts hl => ⟨fun hlt => ?_, fun hle => ?_⟩, ?_⟩
  · rcases rec with ⟨hi, hits, lo, lots⟩
    cases hh
    rw [hfields]
    simp [if_pos hlt]
  · rcases rec with ⟨hi, hits, lo, lots⟩
    cases hh
    rw [hfields]
    simp [if_neg (not_lt.mpr hle)]
  · rcases rec with ⟨hi, hits, lo, lots⟩
    cases hl
    rw [hfields]
    simp [if_pos hlt]
  · rcases rec with ⟨hi, hits, lo, lots⟩
    cases hl
    rw [hfields]
    simp [if_neg (not_lt.mpr hle)]
  · show update_extrema_all emptyExtrema _ = _
    rw [update_extrema_all, List.foldl_cons, List.foldl_cons, List.foldl_cons,
      List.foldl_cons, List.foldl_cons, List.foldl_nil]
    rw [show update_extrema emptyExtrema 5 "t1"
        = ⟨some 5, some "t1", some 5, some "t1"⟩ from rfl]
    rw [hfields]
    norm_num
    rw [hfields]
    norm_num
    rw [hfields]
    norm_num
    rw [hfields]
    norm_num

/-- Witness for `update_extrema_spec`: from a record with high = low = 5, a
price of 7 raises the high, a repeat of 5 changes neither the high nor its
timestamp, and a price of 3 lowers the low. -/
theorem update_extrema_spec_witness :
    (update_extrema ⟨some 5, some "a", some 5, some "a"⟩ 7 "b").high = some 7
    ∧ (update_extrema ⟨some 5, some "a", some 5, some "a"⟩ 5 "b").high = some 5
    ∧ (update_extrema ⟨some 5, some "a", some 5, some "a"⟩ 5 "b").high_ts = some "a"
    ∧ (update_extrema ⟨some 5, some "a", some 5, some "a"⟩ 3 "b").low = some 3 := by
  have h := update_extrema_spec
  refine ⟨((h.2.1 ⟨some 5, some "a", some 5, some "a"⟩ 5 7 "b" rfl).1
      (by norm_num)).1, ?_, ?_, ?_⟩
  · exact ((h.2.1 ⟨some 5, some "a", some 5, some "a"⟩ 5 5 "b" rfl).2 le_rfl).1
  · exact ((h.2.1 ⟨some 5, some "a", some 5, some "a"⟩ 5 5 "b" rfl).2 le_rfl).2
  · exact ((h.2.2.1 ⟨some 5, some "a", some 5, some "a"⟩ 5 3 "b" rfl).1
      (by norm_num)).1

/-- C1 amended: when a dispatch attempt is actually made (nonempty text and
webhook, not suppressed by quiet hours or cooldown), `send_simple` marks the
cooldown key regardless of the post outcome: the last-sent entry for `k` is
set to the attempt time, the resulting state is identical for a failed and
a successful post, and a later call within `cooldown_min` minutes IS
suppressed by cooldown. -/
theorem send_simple_fail_still_marks (qh : String) (cm : ℕ) (url : String)
    (m : LastSent) (text k : String) (bypass : Bool) (tE : ℚ) (tL : ℕ)
    (htext : text ≠ "") (hurl : url ≠ "")
    (hq : quietSuppressed qh bypass tL = false)
    (hcd : _on_cooldown cm m (some k) tE = false)
    (hk : k ≠ "") :
    (∀ o, send_simple qh cm url m text (some k) bypass tE tL o k = some tE)
    ∧ send_simple qh cm url m text (some k) bypass tE tL PostResult.fail
        = send_simple qh cm url m text (some k) bypass tE tL PostResult.ok
    ∧ (∀ t2 : ℚ, t2 - tE < ((if cm = 0 then 30 else cm : ℕ) : ℚ) * 60 →
        _on_cooldown cm
          (send_simple qh cm url m text (some k) bypass tE tL PostResult.fail)
          (some k) t2 = true) := by
  have hmark : ∀ o, send_simple qh cm url m text (some k) bypass tE tL o
      = _mark_sent m (some k) tE := by
    intro o
    simp [send_simple, htext, hurl, hq, hcd]
  refine ⟨fun o => ?_, by rw [hmark, hmark], fun t2 ht2 => ?_⟩
  · rw [hmark]
    simp [_mark_sent, keyFalsy, hk]
  · rw [hmark]
    by_cases h0 : cm = 0
    · simp [h0] at ht2
      simp [_on_cooldown, _mark_sent, keyFalsy, hk, h0]
      exact_mod_cast ht2
    · simp [h0] at ht2
      simp [_on_cooldown, _mark_sent, keyFalsy, hk, h0]
      exact_mod_cast ht2

/-- Witness for `send_simple_fail_still_marks` at a concrete failed dispatch:
the entry for `"k"` is set to the attempt time `1000000`, and a retry 300 s
later is suppressed by the 30-minute cooldown. -/
theorem send_simple_fail_still_marks_witness :
    send_simple "" 30 "u" (fun _ => none) "hi" (some "k") false 1000000 0
      PostResult.fail "k" = some 1000000
    ∧ _on_cooldown 30
        (send_simple "" 30 "u" (fun _ => none) "hi" (some "k") false 1000000 0
          PostResult.fail)
        (some "k") 1000300 = true := by
  have h := send_simple_fail_still_marks "" 30 "u" (fun _ => none) "hi" "k"
    false 1000000 0 (by decide) (by decide) (by decide)
    (by simp [_on_cooldown, keyFalsy]; norm_num) (by decide)
  exact ⟨h.1 PostResult.fail, h.2.2 1000300 (by norm_num)⟩

/-- C9: scheduled briefs fire at most once per item per calendar day. An
enabled item with a valid time, not yet fired today, whose time and day rule
match the tick (and whose target channel resolves) is dispatched and stamped
with today's date; any item already stamped with the tick's date is left
unchanged and not fired, so any number of further same-day ticks — whatever
their minute — never fire it again. -/
theorem scheduler_once_per_day (resolve : ℕ → Bool) (today : Date)
    (hhmm : String) (it : ScheduleItem)
    (hen : it.enabled = true) (hval : _valid_hhmm it.time_hhmm = true)
    (hnot : it.last_trigger_ymd ≠ some today.ymd)
    (hmatch : hhmm = it.time_hhmm) (hday : _matches_day today it.days = true)
    (hch : it.channel_id ≠ 0) (hres : resolve it.channel_id = true) :
    scheduler_tick_item resolve today hhmm it
      = ({ it with last_trigger_ymd := some today.ymd }, true)
    ∧ (∀ (res2 : ℕ → Bool) (today2 : Date) (hhmm2 : String) (it2 : ScheduleItem),
        it2.last_trigger_ymd = some today2.ymd →
        scheduler_tick_item res2 today2 hhmm2 it2 = (it2, false))
    ∧ (∀ ticks : List (Date × String), (∀ t ∈ ticks, t.1.ymd = today.ymd) →
        scheduler_run resolve ticks { it with last_trigger_ymd := some today.ymd }
          = { it with last_trigger_ymd := some today.ymd }) := by
  have hstop : ∀ (res2 : ℕ → Bool) (today2 : Date) (hhmm2 : String)
      (it2 : ScheduleItem), it2.last_trigger_ymd = some today2.ymd →
      scheduler_tick_item res2 today2 hhmm2 it2 = (it2, false) := by
    intro res2 today2 hhmm2 it2 h2
    simp [scheduler_tick_item, h2]
  refine ⟨?_, hstop, fun ticks => ?_⟩
  · subst hmatch
    simp [scheduler_tick_item, hen, hval, hnot, hday, hch, hres]
  · induction ticks with
    | nil => intro _; rfl
    | cons t ts ih =>
      intro hall
      have hym : t.1.ymd = today.ymd := hall t (List.mem_cons_self t ts)
      have h2 : ({ it with last_trigger_ymd := some today.ymd }
          : ScheduleItem).last_trigger_ymd = some t.1.ymd := by
        rw [hym]
      rw [scheduler_run, List.foldl_cons, hstop resolve t.1 t.2 _ h2]
      exact ih fun u hu => hall u (List.mem_cons_of_mem t hu)

/-- Witness for `scheduler_once_per_day`: an enabled weekday item at
`"07:30"` fires and is stamped on a Monday tick at 07:30, and the stamped
item does not fire on a second tick the same day. -/
theorem scheduler_once_per_day_witness :
    scheduler_tick_item (fun _ => true) ⟨"2026-10-12", 0⟩ "07:30"
        ⟨"morning", "07:30", "weekdays", 5, "gm", true, none⟩
      = (⟨"morning", "07:30", "weekdays", 5, "gm", true, some "2026-10-12"⟩, true)
    ∧ scheduler_tick_item (fun _ => true) ⟨"2026-10-12", 0⟩ "07:30"
        ⟨"morning", "07:30", "weekdays", 5, "gm", true, some "2026-10-12"⟩
      = (⟨"morning", "07:30", "weekdays", 5, "gm", true, some "2026-10-12"⟩, false) := by
  have h := scheduler_once_per_day (fun _ => true) ⟨"2026-10-12", 0⟩ "07:30"
    ⟨"morning", "07:30", "weekdays", 5, "gm", true, none⟩
    rfl (by decide) (by decide) rfl (by decide) (by decide) rfl
  exact ⟨h.1, h.2.1 (fun _ => true) ⟨"2026-10-12", 0⟩ "07:30" _ rfl⟩

end DeskSentinel

namespace SentinelCore

theorem le_foldl_max : ∀ (l : List ℚ) (a : ℚ), a ≤ l.foldl max a
  | [], _ => le_rfl
  | x :: xs, a => le_trans (le_max_left a x) (le_foldl_max xs (max a x))

theorem mem_le_foldl_max : ∀ (l : List ℚ) (a x : ℚ), x ∈ l → x ≤ l.foldl max a
  | [], _, x, hx => absurd hx (List.not_mem_nil x)
  | y :: ys, a, x, hx => by
    rcases List.mem_cons.mp hx with h | h
    · subst h
      exact le_trans (le_max_right a x) (le_foldl_max ys (max a x))
    · exact mem_le_foldl_max ys (max a y) x h

theorem foldl_max_mem : ∀ (l : List ℚ) (a : ℚ), l.foldl max a = a ∨ l.foldl max a ∈ l
  | [], _ => Or.inl rfl
  | y :: ys, a => by
    have hstep : (y :: ys).foldl max a = ys.foldl max (max a y) := rfl
    rcases foldl_max_mem ys (max a y) with h | h
    · rcases max_choice a y with hc | hc
      · left
        rw [hstep, h, hc]
      · right
        rw [hstep, h, hc]
        exact List.mem_cons_self y ys
    · right
      rw [hstep]
      exact List.mem_cons_of_mem y h

theorem foldl_min_le : ∀ (l : List ℚ) (a : ℚ), l.foldl min a ≤ a
  | [], _ => le_rfl
  | x :: xs, a => le_trans (foldl_min_le xs (min a x)) (min_le_left a x)

theorem foldl_min_le_mem : ∀ (l : List ℚ) (a x : ℚ), x ∈ l → l.foldl min a ≤ x
  | [], _, x, hx => absurd hx (List.not_mem_nil x)
  | y :: ys, a, x, hx => by
    rcases List.mem_cons.mp hx with h | h
    · subst h
      exact le_trans (foldl_min_le ys (min a x)) (min_le_right a x)
    · exact foldl_min_le_mem ys (min a y) x h

theorem foldl_min_mem : ∀ (l : List ℚ) (a : ℚ), l.foldl min a = a ∨ l.foldl min a ∈ l
  | [], _ => Or.inl rfl
  | y :: ys, a => by
    have hstep : (y :: ys).foldl min a = ys.foldl min (min a y) := rfl
    rcases foldl_min_mem ys (min a y) with h | h
    · rcases min_choice a y with hc | hc
      · left
        rw [hstep, h, hc]
      · right
        rw [hstep, h, hc]
        exact List.mem_cons_self y ys
    · right
      rw [hstep]
      exact List.mem_cons_of_mem y h

theorem seriesMax_spec (l : List ℚ) (hl : l ≠ []) :
    (∀ x ∈ l, x ≤ seriesMax l) ∧ seriesMax l ∈ l := by
  refine ⟨fun x hx => mem_le_foldl_max l (l.headD 0) x hx, ?_⟩
  rcases foldl_max_mem l (l.headD 0) with h | h
  · rw [seriesMax, h]
    cases l with
    | nil => exact absurd rfl hl
    | cons a as => exact List.mem_cons_self a as
  · exact h

theorem seriesMin_spec (l : List ℚ) (hl : l ≠ []) :
    (∀ x ∈ l, seriesMin l ≤ x) ∧ seriesMin l ∈ l := by
  refine ⟨fun x hx => foldl_min_le_mem l (l.headD 0) x hx, ?_⟩
  rcases foldl_min_mem l (l.headD 0) with h | h
  · rw [seriesMin, h]
    cases l with
    | nil => exact absurd rfl hl
    | cons a as => exact List.mem_cons_self a as
  · exact h

theorem pctSignals_kind (pc : ℚ) : ∀ s ∈ pctSignals pc, s.1 = "pct_move" := by
  intro s hs
  rw [pctSignals] at hs
  split at hs
  · rcases List.mem_singleton.mp hs with rfl
    rfl
  · exact absurd hs (List.not_mem_nil s)

theorem rsiCoreSignals_kind (df : List ℚ) :
    ∀ s ∈ rsiCoreSignals df, s.1 = "rsi_oversold" ∨ s.1 = "rsi_overbought" := by
  intro s hs
  simp only [rsiCoreSignals] at hs
  repeat' split at hs
  all_goals first
    | exact absurd hs (List.not_mem_nil s)
    | (rcases List.mem_singleton.mp hs with rfl; exact Or.inl rfl)
    | (rcases List.mem_singleton.mp hs with rfl; exact Or.inr rfl)

theorem maSignals_kind (l : List ℚ) : ∀ s ∈ maSignals l, s.1 = "ma_cross" := by
  intro s hs
  simp only [maSignals] at hs
  repeat' split at hs
  all_goals first
    | exact absurd hs (List.not_mem_nil s)
    | (rcases List.mem_singleton.mp hs with rfl; rfl)

/-- C6: breakout rule. With at least 20 recorded points, a breakout-high
signal is emitted iff the current (last) price is ≥ every one of the last
20 points (i.e. ≥ their maximum), a breakout-low signal iff it is ≤ every
one of them (i.e. ≤ their minimum), and both fire on the same tick only if
the 20-point window consists of a single repeated value. -/
theorem breakout_spec (df : List ℚ) (h20 : 20 ≤ df.length) :
    ((∃ v n, ("break_20_high", v, n) ∈ evaluate_stock_rules df)
      ↔ ∀ x ∈ takeLast 20 df, x ≤ df.getLastD 0)
    ∧ ((∃ v n, ("break_20_low", v, n) ∈ evaluate_stock_rules df)
      ↔ ∀ x ∈ takeLast 20 df, df.getLastD 0 ≤ x)
    ∧ (((∃ v n, ("break_20_high", v, n) ∈ evaluate_stock_rules df)
        ∧ (∃ v n, ("break_20_low", v, n) ∈ evaluate_stock_rules df)) →
        ∀ x ∈ takeLast 20 df, x = df.getLastD 0) := by
  have hne : df.isEmpty = false := by
    cases df
    · simp at h20
    · rfl
  have hwne : takeLast 20 df ≠ [] := by
    have : (takeLast 20 df).length = 20 := by
      rw [takeLast]
      simp only [List.length_drop]
      omega
    intro hnil
    rw [hnil] at this
    simp at this
  have hsplit : ∀ (s : Signal), s.1 = "break_20_high" ∨ s.1 = "break_20_low" →
      (s ∈ evaluate_stock_rules df ↔ s ∈ breakoutSignals df) := by
    intro s hk
    simp only [evaluate_stock_rules, hne, Bool.false_eq_true, if_false,
      List.mem_append]
    constructor
    · rintro ((h | h) | h)
      · have hp := pctSignals_kind _ s h
        rcases hk with hk | hk <;> rw [hp] at hk <;> simp at hk
      · rcases rsiCoreSignals_kind df s h with h1 | h1 <;>
          rcases hk with hk | hk <;> rw [h1] at hk <;> simp at hk
      · exact h
    · exact fun h => Or.inr h
  have hbkHigh : (∃ v n, ("break_20_high", v, n) ∈ breakoutSignals df)
      ↔ seriesMax (takeLast 20 df) ≤ df.getLastD 0 := by
    constructor
    · rintro ⟨v, n, h⟩
      simp only [breakoutSignals, if_pos h20, List.mem_append] at h
      rcases h with (h | h) | h
      · split at h
        · next hcond => exact hcond
        · exact absurd h (List.not_mem_nil _)
      · split at h
        · simp at h
        · exact absurd h (List.not_mem_nil _)
      · have := maSignals_kind _ _ h
        simp at this
    · intro hcond
      refine ⟨df.getLastD 0, "Price hit 20-period high", ?_⟩
      simp only [breakoutSignals, if_pos h20, List.mem_append]
      left; left
      rw [if_pos hcond]
      exact List.mem_singleton_self _
  have hbkLow : (∃ v n, ("break_20_low", v, n) ∈ breakoutSignals df)
      ↔ df.getLastD 0 ≤ seriesMin (takeLast 20 df) := by
    constructor
    · rintro ⟨v, n, h⟩
      simp only [breakoutSignals, if_pos h20, List.mem_append] at h
      rcases h with (h | h) | h
      · split at h
        · simp at h
        · exact absurd h (List.not_mem_nil _)
      · split at h
        · next hcond => exact hcond
        · exact absurd h (List.not_mem_nil _)
      · have := maSignals_kind _ _ h
        simp at this
    · intro hcond
      refine ⟨df.getLastD 0, "Price hit 20-period low", ?_⟩
      simp only [breakoutSignals, if_pos h20, List.mem_append]
      left; right
      rw [if_pos hcond]
      exact List.mem_singleton_self _
  have hmaxs := seriesMax_spec (takeLast 20 df) hwne
  have hmins := seriesMin_spec (takeLast 20 df) hwne
  have hEH : (∃ v n, ("break_20_high", v, n) ∈ evaluate_stock_rules df)
      ↔ ∀ x ∈ takeLast 20 df, x ≤ df.getLastD 0 := by
    constructor
    · rintro ⟨v, n, h⟩
      have hmax := hbkHigh.mp ⟨v, n, (hsplit _ (Or.inl rfl)).mp h⟩
      exact fun x hx => le_trans (hmaxs.1 x hx) hmax
    · intro hall
      rcases hbkHigh.mpr (hall _ hmaxs.2) with ⟨v, n, h⟩
      exact ⟨v, n, (hsplit _ (Or.inl rfl)).mpr h⟩
  have hEL : (∃ v n, ("break_20_low", v, n) ∈ evaluate_stock_rules df)
      ↔ ∀ x ∈ takeLast 20 df, df.getLastD 0 ≤ x := by
    constructor
    · rintro ⟨v, n, h⟩
      have hmin := hbkLow.mp ⟨v, n, (hsplit _ (Or.inr rfl)).mp h⟩
      exact fun x hx => le_trans hmin (hmins.1 x hx)
    · intro hall
      rcases hbkLow.mpr (hall _ hmins.2) with ⟨v, n, h⟩
      exact ⟨v, n, (hsplit _ (Or.inr rfl)).mpr h⟩
  refine ⟨hEH, hEL, fun hboth x hx => ?_⟩
  exact le_antisymm (hEH.mp hboth.1 x hx) (hEL.mp hboth.2 x hx)

/-- Witness for `breakout_spec`: on a window of twenty equal prices both
breakout signals fire and the window is a single repeated value. -/
theorem breakout_spec_witness :
    (∃ v n, ("break_20_high", v, n) ∈ evaluate_stock_rules (List.replicate 20 3))
    ∧ (∃ v n, ("break_20_low", v, n) ∈ evaluate_stock_rules (List.replicate 20 3))
    ∧ ∀ x ∈ takeLast 20 (List.replicate 20 (3 : ℚ)),
        x = (List.replicate 20 (3 : ℚ)).getLastD 0 := by
  have h := breakout_spec (List.replicate 20 3) (by simp)
  have hmem : ∀ x ∈ takeLast 20 (List.replicate 20 (3 : ℚ)), x = 3 := by
    intro x hx
    rw [DeskSentinel.takeLast_of_length_le (by simp)] at hx
    exact List.eq_of_mem_replicate hx
  have hlast : (List.replicate 20 (3 : ℚ)).getLastD 0 = 3 := rfl
  have hhi := h.1.mpr (fun x hx => by rw [hlast, hmem x hx])
  have hlo := h.2.1.mpr (fun x hx => by rw [hlast, hmem x hx])
  exact ⟨hhi, hlo, h.2.2 ⟨hhi, hlo⟩⟩

/-- C10: in the sentinel_core extrema store a stored extreme of exactly 0.0
is absorbing: with the all-time high recorded as 0, no update with any price
changes the high or its timestamp, and symmetrically for a recorded low of
0, because `price > (high or price)` compares the price against itself when
the stored value is falsy. -/
theorem update_extrema_zero_absorbing :
    (∀ (hts : String) (low : ℚ) (lts : String) (price : ℚ) (ts : String),
      (update_extrema (some ⟨0, hts, low, lts⟩) price ts).all_time_high = 0
      ∧ (update_extrema (some ⟨0, hts, low, lts⟩) price ts).high_ts = hts)
    ∧ (∀ (high : ℚ) (hts : String) (lts : String) (price : ℚ) (ts : String),
      (update_extrema (some ⟨high, hts, 0, lts⟩) price ts).all_time_low = 0
      ∧ (update_extrema (some ⟨high, hts, 0, lts⟩) price ts).low_ts = lts) := by
  constructor
  · intro hts low lts price ts
    have ho : orFloat 0 price = price := if_pos rfl
    simp only [update_extrema, ho, if_neg (lt_irrefl price)]
    exact ⟨trivial, trivial⟩
  · intro high hts lts price ts
    have ho : orFloat 0 price = price := if_pos rfl
    simp only [update_extrema, ho, if_neg (lt_irrefl price)]
    exact ⟨trivial, trivial⟩

end SentinelCore
